import Mathlib

set_option maxRecDepth 40000

/-!
Verification of the galvo imaging core of the HRRWLPP repository.

The definitions below are shallow embeddings of:
  * `moveXY` from `Galvo_driver.py` (16-bit protocol variant) and from
    `Master program v1/drivers/Galvo_D2XX.py` (18-bit variant): clamping,
    quantization and bit-serial frame construction;
  * `GALVO.send_frame_atomic` / `GALVO.send_frame_with_verification` from
    `Galvo_D2XX.py`: the frame transport;
  * the trigger-extraction loop of `ImagingTab._on_stop` and the
    pad/truncate logic of `ImagingTab.render_picture` from
    `Master program v1/imaging_tab_v3.py`;
  * the statement order of `ImagingTab._on_start` / `_on_stop`
    (thread start, stop-event, buffer read) as an action trace.

Floating-point inputs are modelled as exact rationals, extended with
signed infinities and NaN where the claims concern non-finite inputs.
-/

/-- Python `int(f)` on a float truncates toward zero; on an exact rational
this is T-division of numerator by denominator. -/
def pytrunc (q : ℚ) : ℤ := q.num.tdiv q.den

/-- Clamp to [-1, 1], as `max(min(v, 1.0), -1.0)` in both `moveXY` variants
(on ordered rationals Python min/max agree with the lattice operations). -/
def clampQ (v : ℚ) : ℚ := max (min v 1) (-1)

/-- Quantization of the 16-bit variant (`Galvo_driver.py` line 9-14):
`int(v * 32767) + 32768` after clamping, as an integer. -/
def code16 (v : ℚ) : ℤ := pytrunc (clampQ v * 32767) + 32768

/-- Quantization of the 18-bit variant (`Galvo_D2XX.py` line 13-16):
`int(v * 131071) + 131072` after clamping, as an integer. -/
def code18 (v : ℚ) : ℤ := pytrunc (clampQ v * 131071) + 131072

/-- The 16-bit code as a natural number (it always lies in [1, 65535]). -/
def quant16 (v : ℚ) : ℕ := (code16 v).toNat

/-- The 18-bit code as a natural number (it always lies in [1, 262143]). -/
def quant18 (v : ℚ) : ℕ := (code18 v).toNat

/-- One pin-state byte of the data section: D0 = y data bit, D1 = x data
bit, D2 = 0, D3 = clock, D4 = frame-sync/enable (always 1 in the data
section). Mirrors `(yb << 0) | (xb << 1) | (0 << 2) | (clk << 3) | (1 << 4)`. -/
def dataByte (xb yb clk : Bool) : ℕ :=
  (if yb then 1 else 0) + 2 * (if xb then 1 else 0) + (if clk then 8 else 0) + 16

/-- Frame of the 16-bit variant (`Galvo_driver.py` `moveXY`): six preamble
bytes, then for bit i (MSB first) the data byte with clock high followed by
the same byte with clock low, then the two postamble bytes. -/
def frame16 (xv yv : ℕ) : List ℕ :=
  [28, 20, 24, 16, 27, 19] ++
    (List.range 16).flatMap (fun i =>
      [dataByte (xv.testBit (15 - i)) (yv.testBit (15 - i)) true,
       dataByte (xv.testBit (15 - i)) (yv.testBit (15 - i)) false]) ++
    [8, 0]

/-- Frame of the 18-bit variant (`Galvo_D2XX.py` `moveXY`): two preamble
bytes `31, 23`, then per bit the clock-high byte followed by the clock-low
byte, then postamble `8, 0`. -/
def frame18 (xv yv : ℕ) : List ℕ :=
  [31, 23] ++
    (List.range 18).flatMap (fun i =>
      [dataByte (xv.testBit (17 - i)) (yv.testBit (17 - i)) true,
       dataByte (xv.testBit (17 - i)) (yv.testBit (17 - i)) false]) ++
    [8, 0]

/-- The 16-bit `moveXY` on finite (rational) inputs. -/
def moveXY16 (x y : ℚ) : List ℕ := frame16 (quant16 x) (quant16 y)

/-- The 18-bit `moveXY` on finite (rational) inputs. -/
def moveXY18 (x y : ℚ) : List ℕ := frame18 (quant18 x) (quant18 y)

/-- A Python float for the purposes of the non-finite-input claim: an exact
finite value, a signed infinity, or NaN. -/
inductive PyFloat : Type
  | fin (q : ℚ)
  | inf
  | ninf
  | nan
deriving DecidableEq

/-- Python float `<` (IEEE ordered comparison: any comparison with NaN is
false). -/
def pyLt : PyFloat → PyFloat → Bool
  | .nan, _ => false
  | _, .nan => false
  | .fin a, .fin b => a < b
  | .fin _, .inf => true
  | .fin _, .ninf => false
  | .inf, .inf => false
  | .inf, .fin _ => false
  | .inf, .ninf => false
  | .ninf, .ninf => false
  | .ninf, _ => true

/-- Python `min(a, b)`: returns `b` exactly when `b < a` (so a NaN first
argument propagates). -/
def pyMin (a b : PyFloat) : PyFloat := if pyLt b a then b else a

/-- Python `max(a, b)`: returns `b` exactly when `a < b`. -/
def pyMax (a b : PyFloat) : PyFloat := if pyLt a b then b else a

/-- The clamp `max(min(v, 1.0), -1.0)` on Python floats. -/
def clampF (v : PyFloat) : PyFloat := pyMax (pyMin v (.fin 1)) (.fin (-1))

/-- Multiplication of a Python float by a positive rational constant
(the only use is the scale factor 131071). -/
def pyMulPos : PyFloat → ℚ → PyFloat
  | .fin q, c => .fin (q * c)
  | .inf, _ => .inf
  | .ninf, _ => .ninf
  | .nan, _ => .nan

/-- Errors Python raises in `moveXY` on non-finite input: `int(nan)` raises
`ValueError`, `int(inf)` raises `OverflowError`. -/
inductive PyErr : Type
  | valueError
  | overflowError
deriving DecidableEq

/-- Python `int(f)` on a float: truncation for finite values, `ValueError`
for NaN, `OverflowError` for infinities. -/
def pyInt : PyFloat → Except PyErr ℤ
  | .fin q => .ok (pytrunc q)
  | .inf => .error .overflowError
  | .ninf => .error .overflowError
  | .nan => .error .valueError

/-- The 18-bit `moveXY` on arbitrary Python floats (`Galvo_D2XX.py` lines
12-32): clamp both axes, then convert `x` first and `y` second (so an error
on `x` is raised before `y` is converted), then build the frame. -/
def moveXY18f (x y : PyFloat) : Except PyErr (List ℕ) :=
  match pyInt (pyMulPos (clampF x) 131071), pyInt (pyMulPos (clampF y) 131071) with
  | .error e, _ => .error e
  | .ok _, .error e => .error e
  | .ok xi, .ok yi => .ok (frame18 (xi + 131072).toNat (yi + 131072).toNat)

/-- State of the FTDI D2XX transport as `send_frame_atomic` interacts with
it: whether it is open, the bytes pending in its transmit buffer, the bytes
the device has received so far, and how many bytes it will accept on the
next write (its byte-count feedback). -/
structure D2XXDev : Type where
  isOpen : Bool
  pendingTx : List ℕ
  received : List ℕ
  acceptCount : ℕ
deriving DecidableEq

/-- Transport errors: writing to a closed device raises; a frame of the
wrong length raises `ValueError` before any device interaction. -/
inductive SendErr : Type
  | valueError
  | deviceNotOpen
deriving DecidableEq

/-- Purge of the transmit buffer (`self._safe(self.dev.purge, PURGE_TX)`).
The `_safe` wrapper swallows the error a closed device raises, leaving the
state unchanged in that case. -/
def purgeTx (d : D2XXDev) : D2XXDev :=
  if d.isOpen then { d with pendingTx := [] } else d

/-- One `dev.write(data)` call: fails on a closed device; otherwise the
device drains the pending transmit buffer followed by the accepted part of
`data`, and reports how many bytes of `data` it accepted. -/
def devWrite (d : D2XXDev) (data : List ℕ) : Except SendErr (D2XXDev × ℕ) :=
  if d.isOpen then
    .ok ({ d with
            pendingTx := [],
            received := d.received ++ d.pendingTx ++ data.take (min d.acceptCount data.length) },
         min d.acceptCount data.length)
  else .error .deviceNotOpen

/-- Embedding of `GALVO.send_frame_atomic` (`Galvo_D2XX.py` lines 113-118):
reject a frame that is not exactly 40 bytes, purge the transmit buffer,
write, and succeed iff the device accepted all 40 bytes. -/
def send_frame_atomic (d : D2XXDev) (frame : List ℕ) : Except SendErr (D2XXDev × Bool) :=
  if frame.length ≠ 40 then .error .valueError
  else
    match devWrite (purgeTx d) frame with
    | .error e => .error e
    | .ok (d2, written) => .ok (d2, written == 40)

/-- Embedding of `GALVO.send_frame_with_verification` (lines 120-129): the
length check, a purge, the timed call to `send_frame_atomic`, and a
"possible fragmentation" warning exactly when the measured wall-clock
duration `dtMs` exceeds 5 ms. The duration is an input of the model; the
returned triple is (device, success, warning). -/
def send_frame_with_verification (d : D2XXDev) (frame : List ℕ) (dtMs : ℚ) :
    Except SendErr (D2XXDev × Bool × Bool) :=
  if frame.length ≠ 40 then .error .valueError
  else
    match send_frame_atomic (purgeTx d) frame with
    | .error e => .error e
    | .ok (d2, ok) => .ok (d2, ok, decide (5 < dtMs))

/-- The trigger-extraction loop of `ImagingTab._on_stop` (`imaging_tab_v3.py`
lines 281-287), fuel-indexed form of the `while i < len(digital)` loop:
on `digital[i] == 1` it advances 50 samples, appends `adc[i + 50]`, and
resumes at `i + 51`; otherwise it advances by one. A read past the end of
the analog list (Python `IndexError`) yields `none`. The fuel only bounds
the iteration count; `extractPixels` supplies enough for the whole list. -/
def extractLoop (dig adc : List ℤ) : ℕ → ℕ → Option (List ℤ)
  | 0, _ => some []
  | fuel + 1, i =>
    if h : i < dig.length then
      if dig[i] = 1 then
        (adc[i + 50]?).bind fun v =>
          Option.map (fun l => v :: l) (extractLoop dig adc fuel (i + 51))
      else extractLoop dig adc fuel (i + 1)
    else some []

/-- The full extraction pass over the accumulated digital/analog sequences. -/
def extractPixels (dig adc : List ℤ) : Option (List ℤ) :=
  extractLoop dig adc dig.length 0

/-- Result of `ImagingTab.render_picture`: the row-major grid (flattened),
whether a short count was padded with zeros, and whether extra points were
truncated. -/
structure RenderOut : Type where
  grid : List ℤ
  shortCount : Bool
  truncated : Bool
deriving DecidableEq

/-- Embedding of `ImagingTab.render_picture` (`imaging_tab_v3.py` lines
309-331): with `expected = ny * nx`, a short list is padded with zeros (and
the short count reported), a long list is truncated, and the result is
reshaped row-major. -/
def render_picture (dataVals : List ℤ) (ny nx : ℕ) : RenderOut :=
  if dataVals.length < ny * nx then
    ⟨dataVals ++ List.replicate (ny * nx - dataVals.length) 0, true, false⟩
  else if ny * nx < dataVals.length then
    ⟨dataVals.take (ny * nx), false, true⟩
  else ⟨dataVals, false, false⟩

/-- Externally visible actions of `ImagingTab._on_start` / `_on_stop`
(`imaging_tab_v3.py`), in program order. Join/stop actions are included in
the type so their absence from the traces is expressible. -/
inductive ScanAction : Type
  | runStreaming
  | startPollThread
  | startMotionWorker
  | setStopEvent
  | stopMotionWorker
  | joinPollThread
  | joinMotionWorker
  | readBuffers
  | renderPictureAct
  | finalizeScan
deriving DecidableEq

/-- Statement order of `ImagingTab._on_start` (lines 248-261): configure and
run streaming, start the scope-polling thread, then start the galvo worker. -/
def onStartTrace : List ScanAction :=
  [.runStreaming, .startPollThread, .startMotionWorker]

/-- Statement order of `ImagingTab._on_stop` (lines 277-294): set the stop
event, then immediately iterate over `digital_values` / `adc_values`
(the buffer read that feeds extraction), render, and finalize. No join of
either activity and no stop request to the galvo worker occurs. -/
def onStopTrace : List ScanAction :=
  [.setStopEvent, .readBuffers, .renderPictureAct, .finalizeScan]

/-- Extraction of the x data bit (pin D1) from a pin-state byte. -/
def getXbit (b : ℕ) : Bool := b / 2 % 2 == 1

/-- Extraction of the y data bit (pin D0) from a pin-state byte. -/
def getYbit (b : ℕ) : Bool := b % 2 == 1

/-- Reassembly of an `n`-bit code from the clock-high data bytes of a frame,
MSB first: byte `pre + 2*i` carries bit `n-1-i`. -/
def decodeCode (bs : List ℕ) (pre n : ℕ) (bit : ℕ → Bool) : ℕ :=
  ∑ i ∈ Finset.range n, if bit ((bs[pre + 2 * i]?).getD 0) then 2 ^ (n - 1 - i) else 0

/-- The x code carried by an 18-bit frame. -/
def decodeX18 (bs : List ℕ) : ℕ := decodeCode bs 2 18 getXbit

/-- The y code carried by an 18-bit frame. -/
def decodeY18 (bs : List ℕ) : ℕ := decodeCode bs 2 18 getYbit

/-- The x code carried by a 16-bit frame. -/
def decodeX16 (bs : List ℕ) : ℕ := decodeCode bs 6 16 getXbit

/-- The y code carried by a 16-bit frame. -/
def decodeY16 (bs : List ℕ) : ℕ := decodeCode bs 6 16 getYbit

/-- The quantization formula as the spec states it for the 16-bit variant:
`round((clamped + 1.0) / 2.0 * (2^16 - 1))`, rounding to nearest. -/
def specRound16 (v : ℚ) : ℤ := round ((clampQ v + 1) / 2 * 65535)

/-- The quantization formula as the spec states it for the 18-bit variant. -/
def specRound18 (v : ℚ) : ℤ := round ((clampQ v + 1) / 2 * 262143)

/-- The inverse affine map of the spec: a code `c` decodes to the
coordinate `2*c/(2^18 - 1) - 1`. -/
def decodeAffine18 (c : ℤ) : ℚ := 2 * (c : ℚ) / 262143 - 1

theorem pytrunc_eq_floor (q : ℚ) (h : 0 ≤ q) : pytrunc q = ⌊q⌋ := by
  rw [pytrunc, Rat.floor_def]
  exact Int.tdiv_eq_ediv (Rat.num_nonneg.mpr h) (Int.natCast_nonneg q.den)

theorem pytrunc_eq_ceil (q : ℚ) (h : q < 0) : pytrunc q = ⌈q⌉ := by
  have h1 : pytrunc (-q) = ⌊-q⌋ := pytrunc_eq_floor (-q) (by linarith)
  have h2 : pytrunc (-q) = -pytrunc q := by
    rw [pytrunc, pytrunc, Rat.neg_num, Rat.neg_den, Int.neg_tdiv]
  have h3 : ⌊-q⌋ = -⌈q⌉ := Int.floor_neg
  omega

theorem pytrunc_dist (q : ℚ) : |(pytrunc q : ℚ) - q| ≤ 1 := by
  rcases le_or_lt 0 q with h | h
  · rw [pytrunc_eq_floor q h, abs_le]
    have h1 : (⌊q⌋ : ℚ) ≤ q := Int.floor_le q
    have h2 : q < ⌊q⌋ + 1 := Int.lt_floor_add_one q
    constructor <;> linarith
  · rw [pytrunc_eq_ceil q h, abs_le]
    have h1 : q ≤ (⌈q⌉ : ℚ) := Int.le_ceil q
    have h2 : (⌈q⌉ : ℚ) < q + 1 := Int.ceil_lt_add_one q
    constructor <;> linarith

theorem pytrunc_bound (B : ℕ) (q : ℚ) (h1 : -(B : ℚ) ≤ q) (h2 : q ≤ B) :
    -(B : ℤ) ≤ pytrunc q ∧ pytrunc q ≤ B := by
  rcases le_or_lt 0 q with h | h
  · rw [pytrunc_eq_floor q h]
    constructor
    · exact le_trans (by omega) (Int.floor_nonneg.mpr h)
    · have := Int.floor_le_floor h2
      rwa [Int.floor_natCast] at this
  · rw [pytrunc_eq_ceil q h]
    constructor
    · have := Int.ceil_le_ceil h1
      rwa [show ⌈(-(B : ℚ) : ℚ)⌉ = -(B : ℤ) by rw [Int.ceil_neg, Int.floor_natCast]] at this
    · have hc : ⌈q⌉ ≤ (0 : ℤ) := Int.ceil_le.mpr (by exact_mod_cast h.le)
      have hB : (0 : ℤ) ≤ (B : ℤ) := Int.natCast_nonneg B
      omega

theorem clampQ_le_one (v : ℚ) : clampQ v ≤ 1 :=
  max_le (min_le_right _ _) (by norm_num)

theorem neg_one_le_clampQ (v : ℚ) : -1 ≤ clampQ v := le_max_right _ _

theorem clampQ_eq (v : ℚ) (h1 : -1 ≤ v) (h2 : v ≤ 1) : clampQ v = v := by
  rw [clampQ, min_eq_left h2, max_eq_left h1]

theorem code16_bounds (v : ℚ) : 1 ≤ code16 v ∧ code16 v ≤ 65535 := by
  have hc1 := clampQ_le_one v
  have hc2 := neg_one_le_clampQ v
  have hb := pytrunc_bound 32767 (clampQ v * 32767) (by push_cast; nlinarith) (by push_cast; nlinarith)
  rw [code16]
  omega

theorem code18_bounds (v : ℚ) : 1 ≤ code18 v ∧ code18 v ≤ 262143 := by
  have hc1 := clampQ_le_one v
  have hc2 := neg_one_le_clampQ v
  have hb := pytrunc_bound 131071 (clampQ v * 131071) (by push_cast; nlinarith) (by push_cast; nlinarith)
  rw [code18]
  omega

theorem quant16_lt (v : ℚ) : quant16 v < 2 ^ 16 := by
  have := code16_bounds v
  rw [quant16]
  omega

theorem quant18_lt (v : ℚ) : quant18 v < 2 ^ 18 := by
  have := code18_bounds v
  rw [quant18]
  omega

theorem flatMap_two_length {α β : Type} (g h : α → β) (l : List α) :
    (l.flatMap fun a => [g a, h a]).length = 2 * l.length := by
  induction l with
  | nil => simp
  | cons a t ih => simp [List.flatMap_cons, ih]; omega

theorem flatMap_two_getElem {α β : Type} (g h : α → β) :
    ∀ (l : List α) (i : ℕ) (hi : i < l.length),
      ((l.flatMap fun a => [g a, h a])[2 * i]? = some (g l[i])) ∧
      ((l.flatMap fun a => [g a, h a])[2 * i + 1]? = some (h l[i])) := by
  intro l
  induction l with
  | nil => intro i hi; simp at hi
  | cons a t ih =>
    intro i hi
    match i with
    | 0 => simp [List.flatMap_cons]
    | i + 1 =>
      have h2 : 2 * (i + 1) = (2 * i + 1) + 1 := by ring
      have h3 : 2 * (i + 1) + 1 = ((2 * i + 1) + 1) + 1 := by ring
      have ht : i < t.length := by simpa using hi
      have := ih i ht
      simp only [List.flatMap_cons, List.cons_append, h2, h3, List.getElem?_cons_succ,
        List.getElem_cons_succ]
      exact this

theorem sum_testBit_eq : ∀ (n v : ℕ), v < 2 ^ n →
    (∑ i ∈ Finset.range n, if v.testBit i then 2 ^ i else 0) = v := by
  intro n
  induction n with
  | zero => intro v hv; simp at hv; simp [hv]
  | succ n ih =>
    intro v hv
    rw [Finset.sum_range_succ']
    have hdiv : v / 2 < 2 ^ n := by
      have : 2 ^ (n + 1) = 2 * 2 ^ n := by ring
      omega
    have hrec := ih (v / 2) hdiv
    have hshift : (∑ i ∈ Finset.range n, if v.testBit (i + 1) then 2 ^ (i + 1) else 0) =
        2 * ∑ i ∈ Finset.range n, if (v / 2).testBit i then 2 ^ i else 0 := by
      rw [Finset.mul_sum]
      refine Finset.sum_congr rfl fun i _ => ?_
      rw [Nat.testBit_add_one]
      split <;> ring
    have hbit0 : (if v.testBit 0 then (1 : ℕ) else 0) = v % 2 := by
      rcases Nat.mod_two_eq_zero_or_one v with h | h <;> simp [Nat.testBit_zero, h]
    rw [hshift, hrec]
    simp only [pow_zero] at hbit0 ⊢
    omega

theorem getXbit_dataByte (xb yb c : Bool) : getXbit (dataByte xb yb c) = xb := by
  cases xb <;> cases yb <;> cases c <;> decide

theorem getYbit_dataByte (xb yb c : Bool) : getYbit (dataByte xb yb c) = yb := by
  cases xb <;> cases yb <;> cases c <;> decide

theorem pre_flat_getElem (pre post : List ℕ) (g h : ℕ → ℕ) (n i : ℕ) (hi : i < n) :
    ((pre ++ ((List.range n).flatMap fun j => [g j, h j]) ++ post)[pre.length + 2 * i]? =
        some (g i)) ∧
    ((pre ++ ((List.range n).flatMap fun j => [g j, h j]) ++ post)[pre.length + 2 * i + 1]? =
        some (h i)) := by
  have hlen : ((List.range n).flatMap fun j => [g j, h j]).length = 2 * n := by
    rw [flatMap_two_length]; simp
  have hflat := flatMap_two_getElem g h (List.range n) i (by simpa using hi)
  rw [List.getElem_range] at hflat
  have hl1 : pre.length + 2 * i <
      (pre ++ (List.range n).flatMap fun j => [g j, h j]).length := by
    rw [List.length_append, hlen]; omega
  have hl2 : pre.length + 2 * i + 1 <
      (pre ++ (List.range n).flatMap fun j => [g j, h j]).length := by
    rw [List.length_append, hlen]; omega
  constructor
  · rw [List.getElem?_append_left hl1,
      List.getElem?_append_right (by omega : pre.length ≤ pre.length + 2 * i),
      show pre.length + 2 * i - pre.length = 2 * i by omega]
    exact hflat.1
  · rw [List.getElem?_append_left hl2,
      List.getElem?_append_right (by omega : pre.length ≤ pre.length + 2 * i + 1),
      show pre.length + 2 * i + 1 - pre.length = 2 * i + 1 by omega]
    exact hflat.2

theorem frame18_data_bytes (xv yv i : ℕ) (hi : i < 18) :
    ((frame18 xv yv)[2 + 2 * i]? =
        some (dataByte (xv.testBit (17 - i)) (yv.testBit (17 - i)) true)) ∧
    ((frame18 xv yv)[3 + 2 * i]? =
        some (dataByte (xv.testBit (17 - i)) (yv.testBit (17 - i)) false)) := by
  have := pre_flat_getElem [31, 23] [8, 0]
    (fun j => dataByte (xv.testBit (17 - j)) (yv.testBit (17 - j)) true)
    (fun j => dataByte (xv.testBit (17 - j)) (yv.testBit (17 - j)) false) 18 i hi
  constructor
  · have h1 := this.1
    rw [show ([31, 23] : List ℕ).length + 2 * i = 2 + 2 * i by simp] at h1
    exact h1
  · have h2 := this.2
    rw [show ([31, 23] : List ℕ).length + 2 * i + 1 = 3 + 2 * i by simp; omega] at h2
    exact h2

theorem frame16_data_bytes (xv yv i : ℕ) (hi : i < 16) :
    ((frame16 xv yv)[6 + 2 * i]? =
        some (dataByte (xv.testBit (15 - i)) (yv.testBit (15 - i)) true)) ∧
    ((frame16 xv yv)[7 + 2 * i]? =
        some (dataByte (xv.testBit (15 - i)) (yv.testBit (15 - i)) false)) := by
  have := pre_flat_getElem [28, 20, 24, 16, 27, 19] [8, 0]
    (fun j => dataByte (xv.testBit (15 - j)) (yv.testBit (15 - j)) true)
    (fun j => dataByte (xv.testBit (15 - j)) (yv.testBit (15 - j)) false) 16 i hi
  constructor
  · have h1 := this.1
    rw [show ([28, 20, 24, 16, 27, 19] : List ℕ).length + 2 * i = 6 + 2 * i by simp] at h1
    exact h1
  · have h2 := this.2
    rw [show ([28, 20, 24, 16, 27, 19] : List ℕ).length + 2 * i + 1 = 7 + 2 * i by
      simp; omega] at h2
    exact h2

theorem decodeX18_frame (xv yv : ℕ) (hx : xv < 2 ^ 18) : decodeX18 (frame18 xv yv) = xv := by
  rw [decodeX18, decodeCode]
  have hstep : ∀ i ∈ Finset.range 18,
      (if getXbit (((frame18 xv yv)[2 + 2 * i]?).getD 0) then 2 ^ (18 - 1 - i) else 0) =
      (if xv.testBit (18 - 1 - i) then 2 ^ (18 - 1 - i) else 0) := by
    intro i hi
    rw [(frame18_data_bytes xv yv i (Finset.mem_range.mp hi)).1]
    simp only [Option.getD_some, getXbit_dataByte]
  rw [Finset.sum_congr rfl hstep,
    Finset.sum_range_reflect (fun j => if xv.testBit j then 2 ^ j else 0) 18]
  exact sum_testBit_eq 18 xv hx

theorem decodeY18_frame (xv yv : ℕ) (hy : yv < 2 ^ 18) : decodeY18 (frame18 xv yv) = yv := by
  rw [decodeY18, decodeCode]
  have hstep : ∀ i ∈ Finset.range 18,
      (if getYbit (((frame18 xv yv)[2 + 2 * i]?).getD 0) then 2 ^ (18 - 1 - i) else 0) =
      (if yv.testBit (18 - 1 - i) then 2 ^ (18 - 1 - i) else 0) := by
    intro i hi
    rw [(frame18_data_bytes xv yv i (Finset.mem_range.mp hi)).1]
    simp only [Option.getD_some, getYbit_dataByte]
  rw [Finset.sum_congr rfl hstep,
    Finset.sum_range_reflect (fun j => if yv.testBit j then 2 ^ j else 0) 18]
  exact sum_testBit_eq 18 yv hy

theorem decodeX16_frame (xv yv : ℕ) (hx : xv < 2 ^ 16) : decodeX16 (frame16 xv yv) = xv := by
  rw [decodeX16, decodeCode]
  have hstep : ∀ i ∈ Finset.range 16,
      (if getXbit (((frame16 xv yv)[6 + 2 * i]?).getD 0) then 2 ^ (16 - 1 - i) else 0) =
      (if xv.testBit (16 - 1 - i) then 2 ^ (16 - 1 - i) else 0) := by
    intro i hi
    rw [(frame16_data_bytes xv yv i (Finset.mem_range.mp hi)).1]
    simp only [Option.getD_some, getXbit_dataByte]
  rw [Finset.sum_congr rfl hstep,
    Finset.sum_range_reflect (fun j => if xv.testBit j then 2 ^ j else 0) 16]
  exact sum_testBit_eq 16 xv hx

theorem decodeY16_frame (xv yv : ℕ) (hy : yv < 2 ^ 16) : decodeY16 (frame16 xv yv) = yv := by
  rw [decodeY16, decodeCode]
  have hstep : ∀ i ∈ Finset.range 16,
      (if getYbit (((frame16 xv yv)[6 + 2 * i]?).getD 0) then 2 ^ (16 - 1 - i) else 0) =
      (if yv.testBit (16 - 1 - i) then 2 ^ (16 - 1 - i) else 0) := by
    intro i hi
    rw [(frame16_data_bytes xv yv i (Finset.mem_range.mp hi)).1]
    simp only [Option.getD_some, getYbit_dataByte]
  rw [Finset.sum_congr rfl hstep,
    Finset.sum_range_reflect (fun j => if yv.testBit j then 2 ^ j else 0) 16]
  exact sum_testBit_eq 16 yv hy

/-- C6: for every input coordinate pair, both protocol variants produce a
frame of the same constant byte length; in particular both the 16-bit and
the 18-bit variant always emit exactly 40 bytes. -/
theorem frame_length_constant (x y : ℚ) :
    (moveXY16 x y).length = 40 ∧ (moveXY18 x y).length = 40 := by
  constructor
  · rw [moveXY16, frame16, List.length_append, List.length_append,
      flatMap_two_length
        (fun i => dataByte ((quant16 x).testBit (15 - i)) ((quant16 y).testBit (15 - i)) true)
        (fun i => dataByte ((quant16 x).testBit (15 - i)) ((quant16 y).testBit (15 - i)) false)
        (List.range 16)]
    simp
  · rw [moveXY18, frame18, List.length_append, List.length_append,
      flatMap_two_length
        (fun i => dataByte ((quant18 x).testBit (17 - i)) ((quant18 y).testBit (17 - i)) true)
        (fun i => dataByte ((quant18 x).testBit (17 - i)) ((quant18 y).testBit (17 - i)) false)
        (List.range 18)]
    simp

theorem pytrunc_zero : pytrunc 0 = 0 := by
  rw [pytrunc_eq_floor 0 le_rfl]; exact Int.floor_zero

theorem quant16_zero : quant16 0 = 32768 := by
  rw [quant16, code16, clampQ_eq 0 (by norm_num) (by norm_num), zero_mul, pytrunc_zero]
  rfl

theorem quant18_zero : quant18 0 = 131072 := by
  rw [quant18, code18, clampQ_eq 0 (by norm_num) (by norm_num), zero_mul, pytrunc_zero]
  rfl

theorem code16_neg_half : code16 (-(1 / 2)) = 16385 := by
  rw [code16, clampQ_eq _ (by norm_num) (by norm_num),
    show (-(1 / 2) : ℚ) * 32767 = -(32767 / 2) by ring,
    pytrunc_eq_ceil _ (by norm_num)]
  have hc : ⌈(-(32767 / 2) : ℚ)⌉ = -16383 := by
    rw [Int.ceil_eq_iff]; norm_num
  rw [hc]
  norm_num

theorem code18_neg_half : code18 (-(1 / 2)) = 65537 := by
  rw [code18, clampQ_eq _ (by norm_num) (by norm_num),
    show (-(1 / 2) : ℚ) * 131071 = -(131071 / 2) by ring,
    pytrunc_eq_ceil _ (by norm_num)]
  have hc : ⌈(-(131071 / 2) : ℚ)⌉ = -65535 := by
    rw [Int.ceil_eq_iff]; norm_num
  rw [hc]
  norm_num

theorem specRound16_neg_half : specRound16 (-(1 / 2)) = 16384 := by
  rw [specRound16, clampQ_eq _ (by norm_num) (by norm_num), round_eq,
    show ((-(1 / 2) : ℚ) + 1) / 2 * 65535 + 1 / 2 = 65537 / 4 by ring]
  rw [Int.floor_eq_iff]; norm_num

theorem specRound18_neg_half : specRound18 (-(1 / 2)) = 65536 := by
  rw [specRound18, clampQ_eq _ (by norm_num) (by norm_num), round_eq,
    show ((-(1 / 2) : ℚ) + 1) / 2 * 262143 + 1 / 2 = 262145 / 4 by ring]
  rw [Int.floor_eq_iff]; norm_num

/-- C2 counterexample: at x = -1/2 both encoder variants disagree with the
spec formula `round((clamped + 1)/2 * (2^N - 1))`: Python `int()` truncates
toward zero, so the 16-bit code is 16385 where rounding gives 16384, and
the 18-bit code is 65537 where rounding gives 65536. -/
theorem quantization_rounding_counterexample :
    code16 (-(1 / 2)) = 16385 ∧ specRound16 (-(1 / 2)) = 16384 ∧
    code18 (-(1 / 2)) = 65537 ∧ specRound18 (-(1 / 2)) = 65536 :=
  ⟨code16_neg_half, specRound16_neg_half, code18_neg_half, specRound18_neg_half⟩

/-- C2 (amended): the encoder clamps each axis independently to [-1, 1] and
quantizes the clamped value by truncation toward zero,
`int(clamped * (2^(N-1) - 1)) + 2^(N-1)`, rather than by the rounded affine
formula; the frames carry exactly these codes MSB-first, and encoding
x = 0, y = 0 still yields exactly the mid-scale code 2^(N-1) on both axes. -/
theorem encoder_truncates_and_hits_midscale :
    (∀ x y : ℚ,
      decodeX18 (moveXY18 x y) = quant18 x ∧ decodeY18 (moveXY18 x y) = quant18 y ∧
      decodeX16 (moveXY16 x y) = quant16 x ∧ decodeY16 (moveXY16 x y) = quant16 y) ∧
    quant16 0 = 32768 ∧ quant18 0 = 131072 :=
  ⟨fun x y =>
    ⟨decodeX18_frame _ _ (quant18_lt x), decodeY18_frame _ _ (quant18_lt y),
     decodeX16_frame _ _ (quant16_lt x), decodeY16_frame _ _ (quant16_lt y)⟩,
   quant16_zero, quant18_zero⟩

/-- C4 counterexample: the first byte emitted for a data bit has the clock
bit SET, not cleared: at x = y = 0 the 18-bit frame byte at index 2 (the
first data-bit byte) is 27, whose clock bit (bit 3) is set, and the
following byte 19 is the one with the clock bit cleared. The 16-bit frame
shows the same phase at its first data byte (index 6). -/
theorem first_data_byte_clock_high_counterexample :
    (moveXY18 0 0)[2]? = some 27 ∧ Nat.testBit 27 3 = true ∧
    (moveXY18 0 0)[3]? = some 19 ∧ (moveXY16 0 0)[6]? = some 27 := by
  have h18 := frame18_data_bytes (quant18 0) (quant18 0) 0 (by norm_num)
  have h16 := frame16_data_bytes (quant16 0) (quant16 0) 0 (by norm_num)
  rw [quant18_zero] at h18
  rw [quant16_zero] at h16
  refine ⟨?_, by decide, ?_, ?_⟩
  · have := h18.1
    rw [show 2 + 2 * 0 = 2 by norm_num] at this
    rw [moveXY18, quant18_zero, this]
    decide
  · have := h18.2
    rw [show 3 + 2 * 0 = 3 by norm_num] at this
    rw [moveXY18, quant18_zero, this]
    decide
  · have := h16.1
    rw [show 6 + 2 * 0 = 6 by norm_num] at this
    rw [moveXY16, quant16_zero, this]
    decide

/-- C4 (amended): for every finite coordinate pair and every bit index
i < 18 (bits MSB first), the 18-bit frame contains exactly two consecutive
bytes for bit i, at offsets 2+2i and 3+2i: first the pin-state byte with
the clock bit SET carrying the data bits and the frame-sync bit, then the
same byte with the clock bit cleared. -/
theorem data_bit_byte_pairs (x y : ℚ) (i : ℕ) (hi : i < 18) :
    (moveXY18 x y)[2 + 2 * i]? =
      some (dataByte ((quant18 x).testBit (17 - i)) ((quant18 y).testBit (17 - i)) true) ∧
    (moveXY18 x y)[3 + 2 * i]? =
      some (dataByte ((quant18 x).testBit (17 - i)) ((quant18 y).testBit (17 - i)) false) := by
  rw [moveXY18]
  exact frame18_data_bytes _ _ i hi

/-- Witness for the amended C4 theorem at x = y = 0, i = 1. -/
theorem data_bit_byte_pairs_witness :
    (moveXY18 0 0)[4]? =
      some (dataByte ((quant18 0).testBit 16) ((quant18 0).testBit 16) true) ∧
    (moveXY18 0 0)[5]? =
      some (dataByte ((quant18 0).testBit 16) ((quant18 0).testBit 16) false) :=
  data_bit_byte_pairs 0 0 1 (by decide)

theorem roundtrip_axis (x : ℚ) (h1 : -1 ≤ x) (h2 : x ≤ 1) :
    |decodeAffine18 (code18 x) - x| ≤ 4 / 262143 := by
  have hcl : clampQ x = x := clampQ_eq x h1 h2
  have hdist : |(pytrunc (x * 131071) : ℚ) - x * 131071| ≤ 1 := pytrunc_dist _
  have hnum : decodeAffine18 (code18 x) - x =
      (2 * (pytrunc (x * 131071) : ℚ) + 1 - 262143 * x) / 262143 := by
    rw [decodeAffine18, code18, hcl]
    push_cast
    ring
  rw [hnum, abs_div, abs_of_pos (show (0 : ℚ) < 262143 by norm_num)]
  have habs : |2 * (pytrunc (x * 131071) : ℚ) + 1 - 262143 * x| ≤ 4 := by
    have h3 : |1 - x| ≤ 2 := by rw [abs_le]; constructor <;> linarith
    calc |2 * (pytrunc (x * 131071) : ℚ) + 1 - 262143 * x|
        = |2 * ((pytrunc (x * 131071) : ℚ) - x * 131071) + (1 - x)| := by ring_nf
      _ ≤ |2 * ((pytrunc (x * 131071) : ℚ) - x * 131071)| + |1 - x| := abs_add _ _
      _ = 2 * |(pytrunc (x * 131071) : ℚ) - x * 131071| + |1 - x| := by
          rw [abs_mul]; norm_num
      _ ≤ 2 * 1 + 2 := by linarith
      _ = 4 := by norm_num
  gcongr

/-- C5 counterexample: at x = -1/2 the inverse affine decode of the encoded
18-bit code differs from the original by 5/524286, which exceeds the
claimed bound 1/2^18. -/
theorem roundtrip_spec_bound_counterexample :
    1 / 2 ^ 18 < |decodeAffine18 (code18 (-(1 / 2))) - (-(1 / 2))| := by
  rw [code18_neg_half, decodeAffine18,
    show (2 * ((65537 : ℤ) : ℚ) / 262143 - 1 - -(1 / 2)) = 5 / 524286 by push_cast; ring,
    abs_of_pos (by norm_num)]
  norm_num

/-- C5 (amended): truncation toward zero (and the fact that the code for
-1 is 1, not 0) makes the round-trip error of the 18-bit encoder up to
almost four codes wide: for all x, y in [-1, 1] the inverse affine decode
recovers each coordinate only to within 4/(2^18 - 1), and the claimed
±1/2^18 bound fails (see the counterexample). -/
theorem roundtrip_within_four_codes (x y : ℚ)
    (hx1 : -1 ≤ x) (hx2 : x ≤ 1) (hy1 : -1 ≤ y) (hy2 : y ≤ 1) :
    |decodeAffine18 (code18 x) - x| ≤ 4 / 262143 ∧
    |decodeAffine18 (code18 y) - y| ≤ 4 / 262143 :=
  ⟨roundtrip_axis x hx1 hx2, roundtrip_axis y hy1 hy2⟩

/-- Witness for the amended C5 theorem at x = y = 0. -/
theorem roundtrip_within_four_codes_witness :
    |decodeAffine18 (code18 0) - 0| ≤ 4 / 262143 ∧
    |decodeAffine18 (code18 0) - 0| ≤ 4 / 262143 :=
  roundtrip_within_four_codes 0 0 (by norm_num) (by norm_num) (by norm_num) (by norm_num)

theorem clampF_fin (q : ℚ) : clampF (.fin q) = .fin (clampQ q) := by
  rw [clampF, clampQ]
  rcases lt_or_le 1 q with h1 | h1
  · rw [show pyMin (.fin q) (.fin 1) = .fin 1 by simp [pyMin, pyLt, h1],
      show pyMax (PyFloat.fin 1) (.fin (-1)) = .fin 1 by simp [pyMax, pyLt],
      min_eq_right h1.le, max_eq_left (by norm_num : (-1 : ℚ) ≤ 1)]
  · rw [show pyMin (.fin q) (.fin 1) = .fin q by simp [pyMin, pyLt, not_lt.mpr h1],
      min_eq_left h1]
    rcases lt_or_le q (-1) with h2 | h2
    · rw [show pyMax (PyFloat.fin q) (.fin (-1)) = .fin (-1) by simp [pyMax, pyLt, h2],
        max_eq_right h2.le]
    · rw [show pyMax (PyFloat.fin q) (.fin (-1)) = .fin q by simp [pyMax, pyLt, not_lt.mpr h2],
        max_eq_left h2]

theorem clampF_inf : clampF .inf = .fin 1 := by decide

theorem clampF_ninf : clampF .ninf = .fin (-1) := by decide

theorem clampF_nan : clampF .nan = .nan := by decide

theorem moveXY18f_fin (x y : ℚ) : moveXY18f (.fin x) (.fin y) = .ok (moveXY18 x y) := by
  rw [moveXY18f, clampF_fin, clampF_fin]
  rfl

/-- C3 counterexample: an infinite coordinate raises no error at all: it is
silently clamped to 1 and a full frame is produced (the same frame the
encoder emits for x = 1). -/
theorem nonfinite_silently_clamped_counterexample :
    moveXY18f .inf (.fin 0) = .ok (moveXY18 1 0) := by
  have h : moveXY18f .inf (.fin 0) = moveXY18f (.fin 1) (.fin 0) := by
    rw [moveXY18f, moveXY18f, clampF_inf, clampF_fin, clampF_fin,
      clampQ_eq 1 (by norm_num) le_rfl]
  rw [h, moveXY18f_fin]

/-- C3 (amended): a NaN coordinate on either axis makes the encoder fail,
but with the generic `ValueError` that Python `int()` raises, not a
dedicated `InvalidCoordinate` error; infinite coordinates are not rejected
at all: they are silently clamped to ±1 and produce a frame. -/
theorem nonfinite_input_behavior (v : PyFloat) :
    moveXY18f .nan v = .error .valueError ∧
    moveXY18f v .nan = .error .valueError ∧
    moveXY18f .inf v = moveXY18f (.fin 1) v ∧
    moveXY18f .ninf v = moveXY18f (.fin (-1)) v ∧
    moveXY18f v .inf = moveXY18f v (.fin 1) ∧
    moveXY18f v .ninf = moveXY18f v (.fin (-1)) := by
  refine ⟨rfl, ?_, ?_, ?_, ?_, ?_⟩
  · cases v with
    | fin q => rw [moveXY18f, clampF_fin]; rfl
    | inf => rfl
    | ninf => rfl
    | nan => rfl
  · rfl
  · rfl
  · cases v with
    | fin q => rw [moveXY18f, moveXY18f, clampF_fin]; rfl
    | inf => rfl
    | ninf => rfl
    | nan => rfl
  · cases v with
    | fin q => rw [moveXY18f, moveXY18f, clampF_fin]; rfl
    | inf => rfl
    | ninf => rfl
    | nan => rfl

/-- C8: for a full-length frame, `send_frame_with_verification` purges the
pending transmit buffer before writing (the device receives only the frame
bytes, never stale pending bytes), reports failure to the caller exactly
when the transport is not open (error) or when fewer than 40 bytes are
accepted (returns false, with no retry), and a transfer duration above the
5 ms threshold only sets the warning flag, never affecting success. -/
theorem send_frame_reporting (d : D2XXDev) (frame : List ℕ) (dtMs : ℚ)
    (hlen : frame.length = 40) :
    (d.isOpen = false → send_frame_with_verification d frame dtMs = .error .deviceNotOpen) ∧
    (d.isOpen = true →
      send_frame_with_verification d frame dtMs =
        .ok ({ d with
                pendingTx := []
                received := d.received ++ frame.take (min d.acceptCount 40) },
             decide (40 ≤ d.acceptCount), decide (5 < dtMs))) := by
  constructor
  · intro hopen
    simp [send_frame_with_verification, send_frame_atomic, devWrite, purgeTx, hlen, hopen]
  · intro hopen
    simp only [send_frame_with_verification, send_frame_atomic, devWrite, purgeTx, hlen, hopen,
      if_true, if_false, ne_eq, not_true_eq_false, if_neg, List.append_nil, List.nil_append]
    norm_num
    rcases le_or_lt 40 d.acceptCount with h | h
    · have h1 : d.acceptCount ⊓ 40 = 40 := min_eq_right h
      rw [h1]
      simp [h]
    · have h1 : d.acceptCount ⊓ 40 = d.acceptCount := min_eq_left h.le
      have h2 : d.acceptCount ≠ 40 := by omega
      have h3 : ¬ (40 ≤ d.acceptCount) := by omega
      rw [h1]
      simp [h2, h3]

/-- Witness for C8 at a concrete open device with stale pending bytes, a
40-byte frame, and a 7 ms transfer. -/
theorem send_frame_reporting_witness :
    send_frame_with_verification ⟨true, [9, 9], [1], 64⟩ (List.replicate 40 2) 7 =
      .ok ({ isOpen := true
             pendingTx := []
             received := [1] ++ (List.replicate 40 2).take (min 64 40)
             acceptCount := 64 },
           decide (40 ≤ 64), decide (5 < (7 : ℚ))) :=
  (send_frame_reporting ⟨true, [9, 9], [1], 64⟩ (List.replicate 40 2) 7 (by decide)).2 rfl

/-- C7: `render_picture` always produces a grid of exactly rows*cols cells;
when fewer pixels were extracted the remainder is padded with zeros and the
short count reported; when more were extracted the extras are discarded;
in all cases the operation completes (it is a total function). -/
theorem render_picture_pads_and_truncates (dataVals : List ℤ) (ny nx : ℕ) :
    (render_picture dataVals ny nx).grid.length = ny * nx ∧
    (dataVals.length < ny * nx →
      render_picture dataVals ny nx =
        ⟨dataVals ++ List.replicate (ny * nx - dataVals.length) 0, true, false⟩) ∧
    (ny * nx < dataVals.length →
      render_picture dataVals ny nx = ⟨dataVals.take (ny * nx), false, true⟩) ∧
    (dataVals.length = ny * nx → render_picture dataVals ny nx = ⟨dataVals, false, false⟩) := by
  refine ⟨?_, ?_, ?_, ?_⟩
  · rw [render_picture]
    split_ifs with h1 h2
    · simp only [List.length_append, List.length_replicate]
      omega
    · simp only [List.length_take]
      omega
    · show dataVals.length = ny * nx
      omega
  · intro h
    rw [render_picture, if_pos h]
  · intro h
    rw [render_picture, if_neg (by omega), if_pos h]
  · intro h
    rw [render_picture, if_neg (by omega), if_neg (by omega)]

/-- Witness for C7: one pixel extracted for a 2-by-2 grid is padded with
three zeros and the short count is reported. -/
theorem render_picture_pads_witness :
    (render_picture [5] 2 2).grid.length = 4 ∧
    render_picture [5] 2 2 = ⟨[5, 0, 0, 0], true, false⟩ := by
  refine ⟨(render_picture_pads_and_truncates [5] 2 2).1, ?_⟩
  have h := (render_picture_pads_and_truncates [5] 2 2).2.1 (by decide)
  rw [h]
  decide

theorem extractLoop_pulses (dig adc : List ℤ) (hlen : adc.length = dig.length) :
    ∀ (fuel : ℕ), ∀ (i : ℕ) (ps : List (ℕ × ℕ)),
      dig.length ≤ i + fuel →
      ps.Pairwise (fun p q => p.1 + 51 ≤ q.1) →
      (∀ p ∈ ps, 1 ≤ p.2 ∧ p.2 ≤ 50 ∧ p.1 + 51 ≤ dig.length ∧ i ≤ p.1) →
      (∀ j (hj : j < dig.length), i ≤ j →
        (dig[j] = 1 ↔ ∃ p ∈ ps, p.1 ≤ j ∧ j < p.1 + p.2)) →
      extractLoop dig adc fuel i = some (ps.map fun p => adc.getD (p.1 + 50) 0) := by
  intro fuel
  induction fuel with
  | zero =>
    intro i ps hfuel hpair hp hdig
    cases ps with
    | nil => simp [extractLoop]
    | cons q t =>
      exfalso
      have := hp q (List.mem_cons_self q t)
      omega
  | succ fuel ih =>
    intro i ps hfuel hpair hp hdig
    rw [extractLoop]
    by_cases hi : i < dig.length
    · rw [dif_pos hi]
      by_cases hd : dig[i] = 1
      · rw [if_pos hd]
        cases ps with
        | nil =>
          exact absurd ((hdig i hi le_rfl).mp hd) (by simp)
        | cons q t =>
          obtain ⟨p, hpmem, hple, hplt⟩ := (hdig i hi le_rfl).mp hd
          have hq1 : q.1 = i := by
            rcases List.mem_cons.mp hpmem with rfl | hmem
            · have := (hp p (List.mem_cons_self p t)).2.2.2
              omega
            · have hqp := (List.pairwise_cons.mp hpair).1 p hmem
              have hiq := (hp q (List.mem_cons_self q t)).2.2.2
              omega
          have hb : i + 50 < adc.length := by
            have := (hp q (List.mem_cons_self q t)).2.2.1
            omega
          have hrec : extractLoop dig adc fuel (i + 51) =
              some (t.map fun p => adc.getD (p.1 + 50) 0) := by
            apply ih (i + 51) t (by omega) (List.pairwise_cons.mp hpair).2
            · intro p hm
              have h1 := hp p (List.mem_cons_of_mem q hm)
              have h2 := (List.pairwise_cons.mp hpair).1 p hm
              exact ⟨h1.1, h1.2.1, h1.2.2.1, by omega⟩
            · intro j hj hij
              constructor
              · intro h1
                obtain ⟨p, hm, hle2, hlt2⟩ := (hdig j hj (by omega)).mp h1
                rcases List.mem_cons.mp hm with rfl | hm2
                · have hw := (hp p (List.mem_cons_self p t)).2.1
                  omega
                · exact ⟨p, hm2, hle2, hlt2⟩
              · rintro ⟨p, hm, hle2, hlt2⟩
                exact (hdig j hj (by omega)).mpr ⟨p, List.mem_cons_of_mem q hm, hle2, hlt2⟩
          rw [List.getElem?_eq_getElem hb, Option.some_bind, hrec, Option.map_some']
          have hget : adc.getD (q.1 + 50) 0 = adc[i + 50] := by
            rw [hq1, List.getD_eq_getElem?_getD, List.getElem?_eq_getElem hb]
            rfl
          rw [List.map_cons, hget]
      · rw [if_neg hd]
        apply ih (i + 1) ps (by omega) hpair
        · intro p hm
          have h1 := hp p hm
          rcases Nat.lt_or_ge i p.1 with h5 | h5
          · exact ⟨h1.1, h1.2.1, h1.2.2.1, by omega⟩
          · exfalso
            apply hd
            have hp1 : p.1 = i := by omega
            exact (hdig i hi le_rfl).mpr ⟨p, hm, by omega, by have := h1.1; omega⟩
        · intro j hj hij
          exact hdig j hj (by omega)
    · rw [dif_neg hi]
      cases ps with
      | nil => simp
      | cons q t =>
        exfalso
        have := hp q (List.mem_cons_self q t)
        omega

/-- C1 (amended): the v3 extraction is level-triggered (`digital[i] == 1`)
with a 51-sample skip window, not rising-edge-triggered. For equal-length
streams whose digital channel takes the value 1 exactly on R*C trigger
pulses, each 1 to 50 samples wide, with consecutive pulse starts at least
51 samples apart and every start at least 51 samples before the end of the
stream, the pass emits one pixel per pulse in order, the pixel for the
pulse starting at index e being `analog[e + 50]`, and `render_picture`
reshapes them into the full R*C grid with no padding or truncation. -/
theorem extract_pixels_row_major (dig adc : List ℤ) (ps : List (ℕ × ℕ)) (R C : ℕ)
    (hlen : adc.length = dig.length)
    (hpair : ps.Pairwise fun p q => p.1 + 51 ≤ q.1)
    (hps : ∀ p ∈ ps, 1 ≤ p.2 ∧ p.2 ≤ 50 ∧ p.1 + 51 ≤ dig.length)
    (hdig : ∀ j (hj : j < dig.length), dig[j] = 1 ↔ ∃ p ∈ ps, p.1 ≤ j ∧ j < p.1 + p.2)
    (hcount : ps.length = R * C) :
    extractPixels dig adc = some (ps.map fun p => adc.getD (p.1 + 50) 0) ∧
    render_picture (ps.map fun p => adc.getD (p.1 + 50) 0) R C =
      ⟨ps.map fun p => adc.getD (p.1 + 50) 0, false, false⟩ := by
  constructor
  · rw [extractPixels]
    exact extractLoop_pulses dig adc hlen dig.length 0 ps (by omega) hpair
      (fun p hm => ⟨(hps p hm).1, (hps p hm).2.1, (hps p hm).2.2, Nat.zero_le _⟩)
      (fun j hj _ => hdig j hj)
  · have hl : (ps.map fun p => adc.getD (p.1 + 50) 0).length = R * C := by
      rw [List.length_map, hcount]
    rw [render_picture, if_neg (by omega), if_neg (by omega)]

/-- Concrete digital stream for the C1 witness: one-sample trigger pulses
at samples 0 and 60, stream length 111. -/
def c1wDig : List ℤ := [1] ++ List.replicate 59 0 ++ [1] ++ List.replicate 50 0

/-- Concrete analog stream for the C1 witness: sample k has value k. -/
def c1wAdc : List ℤ := (List.range 111).map (fun n => (n : ℤ))

/-- Witness for the amended C1 theorem: a 1-by-2 grid from two trigger
pulses at samples 0 and 60. -/
theorem extract_pixels_row_major_witness :
    extractPixels c1wDig c1wAdc =
      some ([((0 : ℕ), (1 : ℕ)), (60, 1)].map fun p => c1wAdc.getD (p.1 + 50) 0) ∧
    render_picture ([((0 : ℕ), (1 : ℕ)), (60, 1)].map fun p => c1wAdc.getD (p.1 + 50) 0) 1 2 =
      ⟨[((0 : ℕ), (1 : ℕ)), (60, 1)].map fun p => c1wAdc.getD (p.1 + 50) 0, false, false⟩ :=
  extract_pixels_row_major c1wDig c1wAdc [(0, 1), (60, 1)] 1 2 (by decide) (by decide)
    (by decide) (by decide) (by decide)

/-- Digital stream for the C1 counterexample: the trigger bit rises at
sample 0 and stays set for 60 samples, then rises again at sample 120;
stream length 171 (exactly two rising edges). -/
def c1xDig : List ℤ :=
  List.replicate 60 1 ++ List.replicate 60 0 ++ [1] ++ List.replicate 50 0

/-- Analog stream for the C1 counterexample: sample k has value k. -/
def c1xAdc : List ℤ := (List.range 171).map (fun n => (n : ℤ))

/-- Rising edges (0-to-1 transitions, the stream treated as preceded by 0)
of the trigger value in a digital stream; the claim counts pixels by these. -/
def risingEdges (dig : List ℤ) : List ℕ :=
  (List.range dig.length).filter fun j =>
    dig.getD j 0 == 1 && (j == 0 || !(dig.getD (j - 1) 0 == 1))

/-- C1 counterexample: a stream with exactly 1*2 rising edges (at samples 0
and 120) whose first pulse is 60 samples wide. The claim requires the grid
[analog[0+50], analog[120+50]] = [50, 170]; the code detects a spurious
third trigger inside the wide pulse and renders [50, 101] instead. -/
theorem extraction_pulse_width_counterexample :
    risingEdges c1xDig = [0, 120] ∧
    extractPixels c1xDig c1xAdc = some [50, 101, 170] ∧
    (render_picture [50, 101, 170] 1 2).grid = [50, 101] ∧
    ((render_picture [50, 101, 170] 1 2).grid ==
      [c1xAdc.getD (0 + 50) 0, c1xAdc.getD (120 + 50) 0]) = false := by
  refine ⟨by decide, by decide, by decide, by decide⟩

/-- Digital stream for the C10 failing input: a single trigger one sample
before the end of a 10-sample stream. -/
def c10Dig : List ℤ := List.replicate 9 0 ++ [1]

/-- Analog stream for the C10 failing input: sample k has value k. -/
def c10Adc : List ℤ := (List.range 10).map (fun n => (n : ℤ))

/-- C10: the claim fails on the code: with equal-length streams and a
trigger among the last 50 samples, the pass reads `adc_values[i + 50]` past
the end of the analog list (a Python IndexError, modelled as `none`), so
the extraction is not total. -/
theorem trigger_near_end_out_of_bounds :
    c10Dig.length = c10Adc.length ∧ extractPixels c10Dig c10Adc = none := by
  refine ⟨by decide, by decide⟩

/-- C9 counterexample: `_on_stop` reads the sample buffers with no join of
either activity: the read action occurs in the stop trace while no join
action (and no stop request to the motion worker) occurs anywhere in it. -/
theorem no_join_before_read_counterexample :
    onStopTrace.count ScanAction.readBuffers = 1 ∧
    onStopTrace.count ScanAction.joinPollThread = 0 ∧
    onStopTrace.count ScanAction.joinMotionWorker = 0 ∧
    onStopTrace.count ScanAction.stopMotionWorker = 0 := by decide

/-- C9 (amended): the acquisition poll is started strictly before the
motion sweep in `_on_start`, but on stop the stop event is merely set and
the sample buffers are read immediately afterwards, with no join of either
activity (and no stop request to the motion worker) anywhere in the stop
handler. -/
theorem scan_ordering_no_join :
    onStartTrace.indexOf ScanAction.startPollThread <
      onStartTrace.indexOf ScanAction.startMotionWorker ∧
    onStopTrace.indexOf ScanAction.setStopEvent <
      onStopTrace.indexOf ScanAction.readBuffers ∧
    onStopTrace.all (fun a => a != ScanAction.joinPollThread &&
      a != ScanAction.joinMotionWorker && a != ScanAction.stopMotionWorker) = true := by
  decide
